import Mathlib

/-
Verification of the team-catcher environment (gym_ma_toy).

The adapter `TeamCatcher` is embedded from
`src/gym_ma_toy/envs/coop/team_catcher.py`.  The simulation engine
(`World`, `Actions`, `MapElement` from the `game` module) is not part of
the available sources, so it is modelled from the specification
(sections 3, 4 and 5 of spec.md); each such definition carries a doc
comment starting with `Modelled from the spec:`.

Python's process-global numpy random generator is made explicit: every
operation that may draw randomness takes the current global RNG state
(a `Nat`) and returns the new one.  `TeamCatcher.seedFn` models
`np.random.seed`, which rewrites that shared state.
-/

/-- Modelled from the spec: the five discrete agent actions
`{0:NOOP, 1:UP, 2:DOWN, 3:LEFT, 4:RIGHT}`. -/
inductive Actions where
  | noop : Actions
  | up : Actions
  | down : Actions
  | left : Actions
  | right : Actions
deriving DecidableEq, Repr

/-- A grid cell, coordinates `(x, y)` with `0 ≤ x, y < grid_size`. -/
structure Pos where
  x : Nat
  y : Nat
deriving DecidableEq, Repr, Inhabited

/-- Modelled from the spec: an agent has a stable integer id (1-based)
and a current position; agents never expire during an episode. -/
structure Agent where
  id : Nat
  pos : Pos
deriving DecidableEq, Repr, Inhabited

/-- Modelled from the spec: a target or mobile has an id, a position and
an `alive` flag cleared exactly once when it is captured. -/
structure Ent where
  id : Nat
  pos : Pos
  alive : Bool
deriving DecidableEq, Repr, Inhabited

/-- Modelled from the spec: one step of the (deterministic) pseudo-random
generator standing in for numpy's global generator.  The exact generator
is unspecified; a linear congruential step is used. -/
def rngNext (s : Nat) : Nat := (1103515245 * s + 12345) % 2 ^ 31

/-- Modelled from the spec: `np.random.seed` — called with a concrete
seed it rewrites the process-global RNG state; with `None` the state is
left to the environment (modelled as unchanged). -/
def npSeed (seed : Option Nat) (g : Nat) : Nat :=
  match seed with
  | some s => s % 2 ^ 31
  | none => g

/-- Remove the `i`-th element of a list, returning it and the rest. -/
def pickNth : List Pos → Nat → Option (Pos × List Pos)
  | [], _ => none
  | c :: rest, 0 => some (c, rest)
  | c :: rest, i + 1 =>
    match pickNth rest i with
    | some (d, rest2) => some (d, c :: rest2)
    | none => none

/-- Modelled from the spec: sample `k` cells uniformly without
replacement from the free list, threading the global RNG state. -/
def sampleCells : Nat → List Pos → Nat → List Pos × Nat
  | 0, _, g => ([], g)
  | k + 1, free, g =>
    if free.isEmpty then ([], g)
    else
      let r := rngNext g
      match pickNth free (r % free.length) with
      | some p =>
        let rest := sampleCells k p.2 r
        (p.1 :: rest.1, rest.2)
      | none => ([], r)

/-- One column of grid cells at abscissa `x`. -/
def colCells (x n : Nat) : List Pos := (List.range n).map (fun y => ⟨x, y⟩)

/-- All cells of the `n × n` grid. -/
def allCells (n : Nat) : List Pos := (List.range n).flatMap (fun x => colCells x n)

/-- Positions of the live entities of a list. -/
def livePosOf (es : List Ent) : List Pos :=
  (es.filter (fun e => e.alive)).map (fun e => e.pos)

/-- Modelled from the spec: the World state — grid size, configuration,
all entities, the per-step capture counters and the stored seed.  The
RNG state itself is process-global and threaded explicitly. -/
structure World where
  size : Nat
  nbAgents : Nat
  nbTargets : Nat
  nbMobiles : Nat
  seed : Option Nat
  agents : List Agent
  targets : List Ent
  mobiles : List Ent
  capturedTargets : Nat
  capturedMobiles : Nat
deriving DecidableEq, Repr, Inhabited

/-- Assign consecutive ids (starting at `i`) to agent cells. -/
def mkAgents (i : Nat) : List Pos → List Agent
  | [] => []
  | c :: rest => ⟨i, c⟩ :: mkAgents (i + 1) rest

/-- Assign consecutive ids (starting at `i`) to target/mobile cells,
all created alive. -/
def mkEnts (i : Nat) : List Pos → List Ent
  | [] => []
  | c :: rest => ⟨i, c, true⟩ :: mkEnts (i + 1) rest

/-- Modelled from the spec: the Random Placement Initializer, run at
construction and on every reset.  It reseeds the global RNG from the
stored seed, samples distinct cells without replacement and assigns
them agents-first, then targets, then mobiles. -/
def World.resetW (w : World) (g : Nat) : World × Nat :=
  let g0 := npSeed w.seed g
  let sampled := sampleCells (w.nbAgents + w.nbTargets + w.nbMobiles) (allCells w.size) g0
  let cells := sampled.1
  ({ w with
      agents := mkAgents 1 (cells.take w.nbAgents),
      targets := mkEnts 1 ((cells.drop w.nbAgents).take w.nbTargets),
      mobiles := mkEnts 1 (cells.drop (w.nbAgents + w.nbTargets)),
      capturedTargets := 0,
      capturedMobiles := 0 }, sampled.2)

/-- Modelled from the spec: World construction runs the Initializer. -/
def World.init (size nbAgents nbTargets nbMobiles : Nat) (seed : Option Nat) (g : Nat) :
    World × Nat :=
  World.resetW ⟨size, nbAgents, nbTargets, nbMobiles, seed, [], [], [], 0, 0⟩ g

/-- Modelled from the spec: apply an action's unit displacement; a move
that would leave `[0, n-1]²` is a no-op at the boundary. -/
def clampMove (n : Nat) (p : Pos) : Actions → Pos
  | .noop => p
  | .up => if p.y + 1 < n then ⟨p.x, p.y + 1⟩ else p
  | .down => if p.y = 0 then p else ⟨p.x, p.y - 1⟩
  | .left => if p.x = 0 then p else ⟨p.x - 1, p.y⟩
  | .right => if p.x + 1 < n then ⟨p.x + 1, p.y⟩ else p

/-- Modelled from the spec: the Actions Resolver loop.  Agents are
processed in ascending-id (list) order; `committed` holds the positions
of already-processed agents, the pending agents still occupy their old
cells, `blocked` holds the live target/mobile cells.  A candidate move
is committed only if its destination is unoccupied. -/
def resolveGo (n : Nat) (blocked : List Pos) (acts : Nat → Actions) :
    List Pos → List Agent → List Agent
  | _, [] => []
  | committed, a :: rest =>
    let cand := clampMove n a.pos (acts a.id)
    let occ := committed ++ rest.map (fun b => b.pos) ++ blocked
    let newPos := if cand = a.pos then a.pos else if cand ∈ occ then a.pos else cand
    { a with pos := newPos } :: resolveGo n blocked acts (newPos :: committed) rest

/-- The in-bounds 4-neighbourhood of a cell. -/
def neighbors (n : Nat) (p : Pos) : List Pos :=
  (if p.y + 1 < n then [⟨p.x, p.y + 1⟩] else []) ++
  (if p.y = 0 then [] else [⟨p.x, p.y - 1⟩]) ++
  (if p.x + 1 < n then [⟨p.x + 1, p.y⟩] else []) ++
  (if p.x = 0 then [] else [⟨p.x - 1, p.y⟩])

/-- Modelled from the spec: the Mobile Motion Policy loop.  Each live
mobile draws one random number from the global RNG state and moves to a
uniformly chosen free in-bounds cardinal neighbour; with no free
neighbour it stays and draws nothing. -/
def moveMobilesGo (n : Nat) (blocked : List Pos) :
    List Pos → Nat → List Ent → List Ent × Nat
  | _, g, [] => ([], g)
  | committed, g, m :: rest =>
    if m.alive then
      let occ := committed ++ livePosOf rest ++ blocked
      let free := (neighbors n m.pos).filter (fun c => decide (¬ c ∈ occ))
      if free.isEmpty then
        let res := moveMobilesGo n blocked (m.pos :: committed) g rest
        (m :: res.1, res.2)
      else
        let r := rngNext g
        let c := free.getD (r % free.length) m.pos
        let res := moveMobilesGo n blocked (c :: committed) r rest
        ({ m with pos := c } :: res.1, res.2)
    else
      let res := moveMobilesGo n blocked committed g rest
      (m :: res.1, res.2)

/-- Modelled from the spec: 4-neighbourhood adjacency (not diagonal). -/
def adjacent (p q : Pos) : Bool :=
  (p.x == q.x && (p.y + 1 == q.y || q.y + 1 == p.y)) ||
  (p.y == q.y && (p.x + 1 == q.x || q.x + 1 == p.x))

/-- Modelled from the spec: a live entity is captured this step when at
least two agents of the post-move snapshot are adjacent to it. -/
def capturedNow (agents : List Agent) (e : Ent) : Bool :=
  e.alive && decide (2 ≤ (agents.filter (fun a => adjacent e.pos a.pos)).length)

/-- Modelled from the spec: the Capture Detector — clear the `alive`
flag of every captured entity and count this step's captures, all
against the same post-move snapshot. -/
def captureEnts (agents : List Agent) (es : List Ent) : List Ent × Nat :=
  (es.map (fun e => if capturedNow agents e then { e with alive := false } else e),
   (es.filter (fun e => capturedNow agents e)).length)

/-- Modelled from the spec: one World step — Actions Resolver, then
Mobile Motion Policy, then Capture Detector, updating the per-step
capture counters. -/
def World.update (w : World) (acts : Nat → Actions) (g : Nat) : World × Nat :=
  let agents2 := resolveGo w.size (livePosOf w.targets ++ livePosOf w.mobiles) acts [] w.agents
  let moved :=
    moveMobilesGo w.size (agents2.map (fun a => a.pos) ++ livePosOf w.targets) [] g w.mobiles
  let tc := captureEnts agents2 w.targets
  let mc := captureEnts agents2 moved.1
  ({ w with
      agents := agents2,
      targets := tc.1,
      mobiles := mc.1,
      capturedTargets := tc.2,
      capturedMobiles := mc.2 }, moved.2)

/-- Modelled from the spec: the number of live targets, `targetsAlive`,
exposed to the adapter as `nb_targets_alive`. -/
def World.nb_targets_alive (w : World) : Nat := (w.targets.filter (fun e => e.alive)).length

/-- Modelled from the spec: the `MapElement` code of the occupant of a
cell — `empty = 0, agent = 1, target = 2, mobile = 3`. -/
def World.cellTag (w : World) (p : Pos) : Nat :=
  if w.agents.any (fun a => decide (a.pos = p)) then 1
  else if (w.targets.filter (fun e => e.alive)).any (fun e => decide (e.pos = p)) then 2
  else if (w.mobiles.filter (fun e => e.alive)).any (fun e => decide (e.pos = p)) then 3
  else 0

/-- The observation dictionary: the `map` array (row `x`, column `y`)
and the `agent_position` mapping; the key `agent_<i>` is represented by
the integer `i`. -/
structure Obs where
  map : List (List Nat)
  agent_position : List (Nat × Pos)
deriving DecidableEq, Repr, Inhabited

/-- Modelled from the spec: the State Exporter (`world.get_state`). -/
def World.get_state (w : World) : Obs :=
  ⟨(List.range w.size).map (fun x => (List.range w.size).map (fun y => w.cellTag ⟨x, y⟩)),
   w.agents.map (fun a => (a.id, a.pos))⟩

/-- A cell is inside the `n × n` grid. -/
def inB (n : Nat) (p : Pos) : Prop := p.x < n ∧ p.y < n

instance (n : Nat) (p : Pos) : Decidable (inB n p) :=
  inferInstanceAs (Decidable (p.x < n ∧ p.y < n))

/-- The positions of all live entities of the world. -/
def World.livePositions (w : World) : List Pos :=
  w.agents.map (fun a => a.pos) ++ livePosOf w.targets ++ livePosOf w.mobiles

/-- The occupancy invariant: live positions pairwise distinct and all
inside the grid. -/
def World.posOk (w : World) : Prop :=
  w.livePositions.Nodup ∧ ∀ p ∈ w.livePositions, inB w.size p

instance (w : World) : Decidable w.posOk :=
  inferInstanceAs (Decidable (_ ∧ _))

/-- Errors the adapter can raise: `ValueError` at construction (carrying
the requested population and the capacity, both as printed in the
message) and `TypeError` from `None + 1` in `step`. -/
inductive PyErr where
  | valueError : Int → Int → PyErr
  | typeError : PyErr
deriving DecidableEq, Repr

/-- The `TeamCatcher` gym environment state
(`team_catcher.py`, `TeamCatcher.__init__` attributes). -/
structure TeamCatcher where
  grid_size : Nat
  world : World
  nb_targets_alive : Nat
  obs : Option Obs
  viewer : Option Unit
  nb_step : Option Nat
deriving DecidableEq, Repr, Inhabited

/-- The `TeamCatcher.seed` method: `np.random.seed(seed)` — it rewrites
the process-global RNG state. -/
def TeamCatcher.seedFn (seed : Option Nat) (g : Nat) : Nat := npSeed seed g

/-- `TeamCatcher.__init__`: raise `ValueError` when
`(grid_size - 1) ** 2 < nb_agents + nb_targets` (the comparison in the
source omits `nb_mobiles`, though the message reports the full
population); otherwise build the `World`, initialise the attributes
(`nb_step = None`, `viewer = None`, `obs = None`) and call
`self.seed(seed)`, which reseeds the global RNG. -/
def teamCatcherInit (grid_size nb_agents nb_targets nb_mobiles : Nat)
    (seed : Option Nat) (g : Nat) : Except PyErr (TeamCatcher × Nat) :=
  if ((grid_size : Int) - 1) ^ 2 < (nb_agents : Int) + (nb_targets : Int) then
    .error (.valueError ((nb_agents : Int) + (nb_targets : Int) + (nb_mobiles : Int))
      (((grid_size : Int) - 1) ^ 2))
  else
    let inited := World.init grid_size nb_agents nb_targets nb_mobiles seed g
    let w := inited.1
    let g2 := TeamCatcher.seedFn seed inited.2
    .ok ({ grid_size := grid_size
           world := w
           nb_targets_alive := w.nb_targets_alive
           obs := none
           viewer := none
           nb_step := none }, g2)

/-- `TeamCatcher.compute_reward`: double points for captured mobiles. -/
def TeamCatcher.compute_reward (capturedTargets capturedMobiles : Nat) : Nat :=
  capturedTargets + 2 * capturedMobiles

/-- `TeamCatcher.episode_end`: the episode is over when the number of
live targets is zero. -/
def TeamCatcher.episode_end (current_nb_targets_alive : Nat) : Bool :=
  if current_nb_targets_alive = 0 then true else false

/-- The info dictionary returned by `step`. -/
structure Info where
  step : Nat
  target_alive : Nat
deriving DecidableEq, Repr, Inhabited

/-- What a successful `TeamCatcher.step` produces: the new environment
state, the returned `(obs, reward, done, info)` tuple, and the global
RNG state after the engine consumed randomness. -/
structure StepResult where
  env : TeamCatcher
  obs : Obs
  reward : Nat
  done : Bool
  info : Info
  rng : Nat
deriving DecidableEq, Repr, Inhabited

/-- `TeamCatcher.step`: update the engine, read its state, compute the
reward from this step's capture counts, refresh `nb_targets_alive`,
compute `done`, then execute `self.nb_step += 1` — which raises
`TypeError` when `nb_step` is still `None` (never reset). -/
def TeamCatcher.step (e : TeamCatcher) (action : Nat → Actions) (g : Nat) :
    Except PyErr StepResult :=
  let upd := e.world.update action g
  let w := upd.1
  let o := w.get_state
  let reward := TeamCatcher.compute_reward w.capturedTargets w.capturedMobiles
  let alive := w.nb_targets_alive
  let done := TeamCatcher.episode_end alive
  match e.nb_step with
  | none => .error .typeError
  | some k =>
    .ok { env := { e with world := w, obs := some o, nb_targets_alive := alive,
                          nb_step := some (k + 1) }
          obs := o
          reward := reward
          done := done
          info := { step := k + 1, target_alive := alive }
          rng := upd.2 }

/-- `TeamCatcher.reset`: reset the engine, export its state, set the
step counter to zero and refresh `nb_targets_alive`; returns the new
environment state, the returned observation and the RNG state. -/
def TeamCatcher.reset (e : TeamCatcher) (g : Nat) : TeamCatcher × Obs × Nat :=
  let rw2 := e.world.resetW g
  let w := rw2.1
  let o := w.get_state
  ({ e with world := w, obs := some o, nb_step := some 0,
            nb_targets_alive := w.nb_targets_alive }, o, rw2.2)

/-- `TeamCatcher.close`: if a viewer is open, close it and clear the
handle; otherwise do nothing. -/
def TeamCatcher.close (e : TeamCatcher) : TeamCatcher :=
  match e.viewer with
  | some _ => { e with viewer := none }
  | none => e

/-- The all-NOOP action mapping. -/
def noopActs : Nat → Actions := fun _ => Actions.noop

/-- Run a list of action mappings from an environment state, collecting
the info dictionaries while `step` returns normally. -/
def runInfos : TeamCatcher → Nat → List (Nat → Actions) → List Info
  | _, _, [] => []
  | e, g, a :: rest =>
    match e.step a g with
    | .ok r => r.info :: runInfos r.env r.rng rest
    | .error _ => []

/-- Run a list of action mappings, collecting each step's observation,
the engine's per-step capture counts, the reward and the done flag. -/
def runTrace : TeamCatcher → Nat → List (Nat → Actions) → List (Obs × Nat × Nat × Nat × Bool)
  | _, _, [] => []
  | e, g, a :: rest =>
    match e.step a g with
    | .ok r =>
      (r.obs, r.env.world.capturedTargets, r.env.world.capturedMobiles, r.reward, r.done) ::
        runTrace r.env r.rng rest
    | .error _ => []

/-- A complete isolated run of the environment: construct it with a
concrete seed starting from an arbitrary prior global RNG state, reset
it, and play the whole action sequence. -/
def fullRun (grid_size nb_agents nb_targets nb_mobiles s : Nat)
    (acts : List (Nat → Actions)) (g : Nat) :
    Except PyErr (Obs × List (Obs × Nat × Nat × Nat × Bool)) :=
  match teamCatcherInit grid_size nb_agents nb_targets nb_mobiles (some s) g with
  | .error err => .error err
  | .ok (e, g1) =>
    let (e1, o, g2) := e.reset g1
    .ok (o, runTrace e1 g2 acts)

/-- The observation space declared in `TeamCatcher.__init__`: the map is
a Box with low 0 and high 2 of shape `(grid_size, grid_size)`, and each
agent coordinate is `Discrete(grid_size - 1)`, that is an integer
strictly below `grid_size - 1`. -/
def obsInSpace (grid_size nb_agents : Nat) (o : Obs) : Bool :=
  decide (o.map.length = grid_size) &&
  o.map.all (fun row => decide (row.length = grid_size) && row.all (fun v => decide (v ≤ 2))) &&
  decide (o.agent_position.map Prod.fst = (List.range nb_agents).map (fun i => i + 1)) &&
  o.agent_position.all (fun ap => decide (ap.2.x < grid_size - 1) && decide (ap.2.y < grid_size - 1))

/-- Modelled from the spec: the observation shape section 6 promises —
a `grid_size × grid_size` map over the codes `{0, 1, 2, 3}` and one
entry per agent with both coordinates in `[0, grid_size - 1]`. -/
def obsSpecShaped (grid_size nb_agents : Nat) (o : Obs) : Bool :=
  decide (o.map.length = grid_size) &&
  o.map.all (fun row => decide (row.length = grid_size) && row.all (fun v => decide (v ≤ 3))) &&
  decide (o.agent_position.map Prod.fst = (List.range nb_agents).map (fun i => i + 1)) &&
  o.agent_position.all (fun ap => decide (ap.2.x < grid_size) && decide (ap.2.y < grid_size))

/-- A concrete environment used by witnesses: grid 5, two agents, one
target, one mobile, seed 3, built from global RNG state 0. -/
def sampleInit : TeamCatcher × Nat :=
  match teamCatcherInit 5 2 1 1 (some 3) 0 with
  | .ok p => p
  | .error _ => (default, 0)

/-- The sample environment after `reset`. -/
def sampleReset : TeamCatcher × Obs × Nat := sampleInit.1.reset sampleInit.2

/-- The result of one all-NOOP step of the reset sample environment. -/
def sampleStep : StepResult :=
  match sampleReset.1.step noopActs sampleReset.2.2 with
  | .ok r => r
  | .error _ => default

/-- A concrete environment exercising the observation space: grid 4,
one agent, one target, one mobile, seed 0. -/
def spaceEnv : TeamCatcher × Nat :=
  match teamCatcherInit 4 1 1 1 (some 0) 0 with
  | .ok p => p
  | .error _ => (default, 0)

/-- The observation returned by `reset` of `spaceEnv`; its map holds a
3 where the live mobile sits. -/
def spaceObs : Obs := (spaceEnv.1.reset spaceEnv.2).2.1

/-- Two environments with identical configuration (grid 5, one agent,
one target, one mobile) and identical seed 0, interleaved on the shared
process-global RNG: both are constructed, both are reset, then each
takes one all-NOOP step, the second from the RNG state the first left
behind — what happens when two instances coexist in one process.
Returns the two observation sequences (reset observation, then the
step observation). -/
def sharedRngTraces : Option (List Obs × List Obs) :=
  match teamCatcherInit 5 1 1 1 (some 0) 0 with
  | .error _ => none
  | .ok (e1, g1) =>
    match teamCatcherInit 5 1 1 1 (some 0) g1 with
    | .error _ => none
    | .ok (e2, g2) =>
      let (e1r, o1, g3) := e1.reset g2
      let (e2r, o2, g4) := e2.reset g3
      match e1r.step noopActs g4 with
      | .error _ => none
      | .ok r1 =>
        match e2r.step noopActs r1.rng with
        | .error _ => none
        | .ok r2 => some ([o1, r1.obs], [o2, r2.obs])

/-- The observation sequence of the first interleaved environment. -/
def sharedRngTraceA : List Obs := (sharedRngTraces.map Prod.fst).getD []

/-- The observation sequence of the second interleaved environment. -/
def sharedRngTraceB : List Obs := (sharedRngTraces.map Prod.snd).getD []

/-- C1: evaluation of the code at the failing input `grid_size = 3,
nb_agents = 4, nb_targets = 0, nb_mobiles = 5`.  The requested
population `4 + 0 + 5 = 9` exceeds the capacity `(3 - 1)² = 4`, yet
construction succeeds and a `World` is built, because the comparison in
`TeamCatcher.__init__` reads `(grid_size - 1) ** 2 < nb_agents +
nb_targets`, omitting `nb_mobiles`, even though the error message it
would print reports `nb_agents + nb_targets + nb_mobiles`. -/
theorem initAcceptsOverfullPopulation :
    ((3 : Int) - 1) ^ 2 < (4 : Int) + 0 + 5 ∧
    (teamCatcherInit 3 4 0 5 none 0).isOk = true := by decide

/-- C3: the observation returned by `reset` (here for grid 4, one
agent, one target, one mobile, seed 0) is exactly spec-shaped — a 4×4
map over the codes 0..3 with coordinates inside the grid — but the
observation space declared in `TeamCatcher.__init__` rejects it: the
map Box is declared with `high = 2`, excluding the mobile code 3, and
each coordinate as `Discrete(grid_size - 1)`, excluding the coordinate
`grid_size - 1`. -/
theorem resetObsOutsideDeclaredSpace :
    obsSpecShaped 4 1 spaceObs = true ∧ obsInSpace 4 1 spaceObs = false := by decide

/-- C10: `close` is idempotent — a second `close` leaves the
environment exactly as the first left it — and after any `close` the
viewer handle is `None`. -/
theorem closeIdem (e : TeamCatcher) :
    e.close.close = e.close ∧ e.close.viewer = none := by
  cases e with
  | mk gs w nta o v ns => cases v <;> simp [TeamCatcher.close]

/-- C4: whenever `step` returns normally, the reward it returns equals
`capturedTargets + 2 * capturedMobiles`, the per-step capture counts
reported by the engine after this step's update. -/
theorem stepRewardFormula (e : TeamCatcher) (a : Nat → Actions) (g : Nat)
    (r : StepResult) (h : e.step a g = .ok r) :
    r.reward = r.env.world.capturedTargets + 2 * r.env.world.capturedMobiles := by
  cases hk : e.nb_step with
  | none => simp [TeamCatcher.step, hk] at h
  | some k =>
    simp only [TeamCatcher.step, hk, Except.ok.injEq] at h
    subst h
    rfl

/-- C4 witness: the reward formula at the concrete sample step. -/
theorem stepRewardFormulaW :
    sampleStep.reward =
      sampleStep.env.world.capturedTargets + 2 * sampleStep.env.world.capturedMobiles :=
  stepRewardFormula sampleReset.1 noopActs sampleReset.2.2 sampleStep rfl

/-- C5: whenever `step` returns normally, the `done` flag is true
exactly when the number of live targets after the step is zero. -/
theorem stepDoneIff (e : TeamCatcher) (a : Nat → Actions) (g : Nat)
    (r : StepResult) (h : e.step a g = .ok r) :
    (r.done = true ↔ r.env.nb_targets_alive = 0) := by
  cases hk : e.nb_step with
  | none => simp [TeamCatcher.step, hk] at h
  | some k =>
    simp only [TeamCatcher.step, hk, Except.ok.injEq] at h
    subst h
    simp only [TeamCatcher.episode_end]
    split
    · simp_all
    · simp_all

/-- C5 witness: the done flag at the concrete sample step. -/
theorem stepDoneIffW :
    (sampleStep.done = true ↔ sampleStep.env.nb_targets_alive = 0) :=
  stepDoneIff sampleReset.1 noopActs sampleReset.2.2 sampleStep rfl

/-- C9: construction initialises `nb_step` to `None`, so on an
environment on which `reset` was never called, `step` does not return
normally: the `self.nb_step += 1` increment raises `TypeError`. -/
theorem stepBeforeResetRaises (gs nA nT nM : Nat) (s : Option Nat) (g : Nat)
    (e : TeamCatcher) (g1 : Nat)
    (h : teamCatcherInit gs nA nT nM s g = .ok (e, g1))
    (a : Nat → Actions) (g2 : Nat) :
    e.step a g2 = .error .typeError := by
  have hn : e.nb_step = none := by
    unfold teamCatcherInit at h
    split at h
    · exact absurd h (by simp)
    · simp only [Except.ok.injEq, Prod.mk.injEq] at h
      obtain ⟨he, _⟩ := h
      rw [← he]
  simp [TeamCatcher.step, hn]

/-- C9 witness: stepping the freshly constructed sample environment
before any reset raises `TypeError`. -/
theorem stepBeforeResetRaisesW :
    sampleInit.1.step noopActs 0 = .error .typeError :=
  stepBeforeResetRaises 5 2 1 1 (some 3) 0 sampleInit.1 sampleInit.2 rfl noopActs 0

/-- Auxiliary for C6: from an environment whose step counter holds `j`,
the infos of a run report the steps `j+1, j+2, ...`, one per action. -/
theorem runInfos_map_step (acts : List (Nat → Actions)) :
    ∀ (e : TeamCatcher) (g j : Nat), e.nb_step = some j →
      (runInfos e g acts).map Info.step = List.range' (j + 1) acts.length := by
  induction acts with
  | nil => intro e g j _; rfl
  | cons a rest ih =>
    intro e g j hj
    simp only [runInfos, TeamCatcher.step, hj, List.map_cons, List.length_cons,
      List.range'_succ]
    refine congrArg (List.cons _) ?_
    exact ih _ _ (j + 1) rfl

/-- C6: `reset` sets the step counter to 0 and returns the engine's
exported state, and each subsequent `step` advances the counter by one,
so the info of the k-th step after a reset reports `step = k`: the
reported steps of a run of `n` actions are exactly `1, 2, ..., n`. -/
theorem resetCounterAndStepInfos (e : TeamCatcher) (g : Nat) (acts : List (Nat → Actions)) :
    (e.reset g).1.nb_step = some 0 ∧
    (e.reset g).2.1 = (e.reset g).1.world.get_state ∧
    (runInfos (e.reset g).1 (e.reset g).2.2 acts).map Info.step =
      List.range' 1 acts.length := by
  refine ⟨rfl, rfl, ?_⟩
  exact runInfos_map_step acts _ _ 0 rfl

/-- Auxiliary for C2: with a concrete seed, construction overwrites the
process-global RNG state, so its result does not depend on the prior
global state. -/
theorem initSeededIgnoresPriorRng (gs nA nT nM s g g' : Nat) :
    teamCatcherInit gs nA nT nM (some s) g = teamCatcherInit gs nA nT nM (some s) g' := by
  unfold teamCatcherInit
  split
  · rfl
  · rfl

/-- C2 (amended): a run — construction with a concrete seed, reset,
then the whole action sequence — is a function of the configuration,
the seed and the actions only: `np.random.seed` overwrites the global
RNG state at construction and reset, so two runs with identical
configuration, seed and action sequence, each executed on its own,
produce identical observation sequences, capture counts, rewards and
done flags, whatever global RNG states they start from. -/
theorem seededRunsIdentical (gs nA nT nM s : Nat) (acts : List (Nat → Actions)) (g g' : Nat) :
    fullRun gs nA nT nM s acts g = fullRun gs nA nT nM s acts g' := by
  unfold fullRun
  rw [initSeededIgnoresPriorRng gs nA nT nM s g g']

/-- C2 counterexample: two environments with identical configuration
and identical seed, fed the identical all-NOOP action sequence, return
different observation sequences when their lifetimes interleave in one
process, because `TeamCatcher.seed` calls `np.random.seed` on the
process-global generator rather than one owned by the World instance:
the second environment's draws displace the first environment's. -/
theorem sharedRngTracesDiverge :
    sharedRngTraces.isSome = true ∧ sharedRngTraceA ≠ sharedRngTraceB := by decide

/-- Auxiliary for C7: clearing some alive flags can only decrease the
number of live entities of a list. -/
theorem alive_filter_map_le (ags : List Agent) (es : List Ent) :
    ((es.map (fun e => if capturedNow ags e then { e with alive := false } else e)).filter
        (fun e => e.alive)).length ≤
      (es.filter (fun e => e.alive)).length := by
  induction es with
  | nil => exact Nat.le_refl 0
  | cons e rest ih =>
    simp only [List.map_cons]
    by_cases hc : capturedNow ags e
    · rw [if_pos hc, List.filter_cons_of_neg (by simp)]
      by_cases ha : e.alive = true
      · rw [List.filter_cons_of_pos (by simpa using ha)]
        exact Nat.le_succ_of_le ih
      · rw [List.filter_cons_of_neg (by simpa using ha)]
        exact ih
    · rw [if_neg hc]
      by_cases ha : e.alive = true
      · rw [List.filter_cons_of_pos (by simpa using ha),
          List.filter_cons_of_pos (by simpa using ha)]
        simp only [List.length_cons]
        exact Nat.succ_le_succ ih
      · rw [List.filter_cons_of_neg (by simpa using ha),
          List.filter_cons_of_neg (by simpa using ha)]
        exact ih

/-- Auxiliary for C7: one engine update cannot increase the number of
live targets — the Capture Detector only clears alive flags. -/
theorem update_targets_alive_le (w : World) (a : Nat → Actions) (g : Nat) :
    ((w.update a g).1).nb_targets_alive ≤ w.nb_targets_alive := by
  simp only [World.update, World.nb_targets_alive, captureEnts]
  exact alive_filter_map_le _ _

/-- C7: within an episode the exposed count of live targets never
increases: one `step` from an environment whose cached
`nb_targets_alive` agrees with the engine (as `reset` and every `step`
leave it) yields a value at most the old one, and the agreement is
preserved, so the count is non-increasing along any step sequence. -/
theorem targetsAliveNonincreasing (e : TeamCatcher) (a : Nat → Actions) (g : Nat)
    (r : StepResult) (hsync : e.nb_targets_alive = e.world.nb_targets_alive)
    (h : e.step a g = .ok r) :
    r.env.nb_targets_alive ≤ e.nb_targets_alive ∧
    r.env.nb_targets_alive = r.env.world.nb_targets_alive := by
  cases hk : e.nb_step with
  | none => simp [TeamCatcher.step, hk] at h
  | some k =>
    simp only [TeamCatcher.step, hk, Except.ok.injEq] at h
    subst h
    refine ⟨?_, rfl⟩
    rw [hsync]
    exact update_targets_alive_le e.world a g

/-- C7 witness: concrete non-increase at the sample step. -/
theorem targetsAliveNonincreasingW :
    sampleStep.env.nb_targets_alive ≤ sampleReset.1.nb_targets_alive ∧
    sampleStep.env.nb_targets_alive = sampleStep.env.world.nb_targets_alive :=
  targetsAliveNonincreasing sampleReset.1 noopActs sampleReset.2.2 sampleStep rfl rfl

/-- Auxiliary: removing the `i`-th element is a permutation. -/
theorem pickNth_perm : ∀ (l : List Pos) (i : Nat) (c : Pos) (l2 : List Pos),
    pickNth l i = some (c, l2) → l.Perm (c :: l2) := by
  intro l
  induction l with
  | nil => intro i c l2 h; simp [pickNth] at h
  | cons a rest ih =>
    intro i c l2 h
    cases i with
    | zero =>
      simp only [pickNth, Option.some.injEq, Prod.mk.injEq] at h
      obtain ⟨h1, h2⟩ := h
      subst h1
      subst h2
      exact List.Perm.refl _
    | succ i =>
      cases hp : pickNth rest i with
      | none =>
        simp only [pickNth, hp] at h
        exact Option.noConfusion h
      | some p =>
        obtain ⟨d, rest2⟩ := p
        simp only [pickNth, hp, Option.some.injEq, Prod.mk.injEq] at h
        obtain ⟨h1, h2⟩ := h
        subst h1
        subst h2
        exact (List.Perm.cons a (ih i d rest2 hp)).trans (List.Perm.swap d a rest2)

/-- Auxiliary: the sampled cells are pairwise distinct and drawn from
the free list. -/
theorem sampleCells_nodup_sub : ∀ (k : Nat) (free : List Pos) (g : Nat), free.Nodup →
    (sampleCells k free g).1.Nodup ∧ ∀ c ∈ (sampleCells k free g).1, c ∈ free := by
  intro k
  induction k with
  | zero =>
    intro free g _
    refine ⟨List.nodup_nil, ?_⟩
    intro c hc
    simp [sampleCells] at hc
  | succ k ih =>
    intro free g hfree
    cases free with
    | nil =>
      refine ⟨?_, ?_⟩
      · simp [sampleCells]
      · intro c hc
        simp [sampleCells] at hc
    | cons a cs =>
      cases hp : pickNth (a :: cs) (rngNext g % (cs.length + 1)) with
      | none =>
        have heq : sampleCells (k + 1) (a :: cs) g = ([], rngNext g) := by
          simp [sampleCells, hp]
        rw [heq]
        refine ⟨List.nodup_nil, ?_⟩
        intro c hc
        simp at hc
      | some p =>
        obtain ⟨c0, free2⟩ := p
        have hperm : (a :: cs).Perm (c0 :: free2) := pickNth_perm _ _ _ _ hp
        have hnd2 : (c0 :: free2).Nodup := hperm.nodup hfree
        have hc0 : ¬ c0 ∈ free2 := (List.nodup_cons.mp hnd2).1
        have hfree2 : free2.Nodup := (List.nodup_cons.mp hnd2).2
        obtain ⟨ihnd, ihsub⟩ := ih free2 (rngNext g) hfree2
        have heq : sampleCells (k + 1) (a :: cs) g =
            (c0 :: (sampleCells k free2 (rngNext g)).1, (sampleCells k free2 (rngNext g)).2) := by
          simp [sampleCells, hp]
        rw [heq]
        refine ⟨?_, ?_⟩
        · exact List.nodup_cons.mpr ⟨fun hmem => hc0 (ihsub c0 hmem), ihnd⟩
        · intro c hc
          rcases List.mem_cons.mp hc with rfl | hcm
          · exact hperm.symm.subset (List.mem_cons_self _ _)
          · exact hperm.symm.subset (List.mem_cons_of_mem _ (ihsub c hcm))

/-- Auxiliary: the cells of the grid are pairwise distinct. -/
theorem nodup_allCells (n : Nat) : (allCells n).Nodup := by
  unfold allCells
  rw [List.nodup_flatMap]
  constructor
  · intro x _
    refine List.Nodup.map ?_ (List.nodup_range n)
    intro y1 y2 h
    simpa [colCells] using h
  · refine (List.pairwise_lt_range n).imp ?_
    intro x1 x2 hx p hp1 hp2
    simp only [colCells, List.mem_map, List.mem_range] at hp1 hp2
    obtain ⟨y1, _, hpy1⟩ := hp1
    obtain ⟨y2, _, hpy2⟩ := hp2
    subst hpy1
    have he : x2 = x1 ∧ y2 = y1 := by simpa using hpy2
    obtain ⟨he1, _⟩ := he
    omega

/-- Auxiliary: every grid cell is in bounds. -/
theorem mem_allCells {n : Nat} {p : Pos} (h : p ∈ allCells n) : p.x < n ∧ p.y < n := by
  simp only [allCells, colCells, List.mem_flatMap, List.mem_map, List.mem_range] at h
  obtain ⟨x, hx, y, hy, hp⟩ := h
  subst hp
  exact ⟨hx, hy⟩

/-- Auxiliary: assigning ids does not change the cells. -/
theorem mkAgents_map_pos : ∀ (cs : List Pos) (i : Nat),
    (mkAgents i cs).map (fun a => a.pos) = cs := by
  intro cs
  induction cs with
  | nil => intro i; rfl
  | cons c rest ih =>
    intro i
    simp only [mkAgents, List.map_cons, ih]

/-- Auxiliary: freshly created targets/mobiles are all alive and sit on
the given cells. -/
theorem livePosOf_mkEnts : ∀ (cs : List Pos) (i : Nat), livePosOf (mkEnts i cs) = cs := by
  intro cs
  induction cs with
  | nil => intro i; rfl
  | cons c rest ih =>
    intro i
    simp only [mkEnts, livePosOf, List.filter_cons_of_pos, List.map_cons]
    have := ih (i + 1)
    simp only [livePosOf] at this
    rw [this]

/-- Auxiliary: the live positions of a cons. -/
theorem livePosOf_cons (m : Ent) (rest : List Ent) :
    livePosOf (m :: rest) =
      if m.alive then m.pos :: livePosOf rest else livePosOf rest := by
  by_cases h : m.alive = true
  · simp [livePosOf, List.filter_cons_of_pos, h]
  · simp [livePosOf, List.filter_cons_of_neg, h]

/-- Auxiliary: membership in the live positions. -/
theorem mem_livePosOf {p : Pos} {es : List Ent} :
    p ∈ livePosOf es ↔ ∃ e, e ∈ es ∧ e.alive = true ∧ e.pos = p := by
  simp only [livePosOf, List.mem_map, List.mem_filter]
  constructor
  · intro h
    obtain ⟨e, ⟨h1, h2⟩, h3⟩ := h
    exact ⟨e, h1, h2, h3⟩
  · intro h
    obtain ⟨e, h1, h2, h3⟩ := h
    exact ⟨e, ⟨h1, h2⟩, h3⟩

/-- Auxiliary: moving a head element across an append preserves
distinctness. -/
theorem nodup_mid_swap {p : Pos} {C X B : List Pos} :
    ((p :: C) ++ X ++ B).Nodup ↔ (C ++ (p :: X) ++ B).Nodup := by
  apply List.Perm.nodup_iff
  apply List.Perm.append_right
  exact List.perm_middle.symm

/-- Auxiliary: distinctness of a triple concatenation in terms of its
components. -/
theorem nodup_three_iff {A B C : List Pos} :
    (A ++ (B ++ C)).Nodup ↔
      (A.Nodup ∧ B.Nodup ∧ C.Nodup) ∧
        (A.Disjoint B ∧ A.Disjoint C ∧ B.Disjoint C) := by
  simp only [List.nodup_append, List.disjoint_append_right]
  tauto

/-- Auxiliary for C8: after the Initializer, the live positions are
exactly the sampled cells. -/
theorem resetW_livePositions (w : World) (g : Nat) :
    ((w.resetW g).1).livePositions =
      (sampleCells (w.nbAgents + w.nbTargets + w.nbMobiles) (allCells w.size)
        (npSeed w.seed g)).1 := by
  simp only [World.resetW, World.livePositions, mkAgents_map_pos, livePosOf_mkEnts]
  rw [← List.drop_drop, List.append_assoc, List.take_append_drop, List.take_append_drop]

/-- Auxiliary for C8: the Initializer establishes the occupancy
invariant. -/
theorem resetW_posOk (w : World) (g : Nat) : ((w.resetW g).1).posOk := by
  obtain ⟨hnd, hsub⟩ :=
    sampleCells_nodup_sub (w.nbAgents + w.nbTargets + w.nbMobiles) (allCells w.size)
      (npSeed w.seed g) (nodup_allCells w.size)
  constructor
  · rw [resetW_livePositions]
    exact hnd
  · intro p hp
    rw [resetW_livePositions] at hp
    exact mem_allCells (hsub p hp)

/-- Auxiliary: the invariant at a literal cell. -/
theorem inB_mk {n x y : Nat} : inB n ⟨x, y⟩ ↔ x < n ∧ y < n := Iff.rfl

/-- Auxiliary for C8: boundary clamping keeps agents on the grid. -/
theorem clampMove_inB {n : Nat} {p : Pos} (h : inB n p) (a : Actions) :
    inB n (clampMove n p a) := by
  obtain ⟨h1, h2⟩ := h
  cases a <;> simp only [clampMove] <;> try split
  all_goals first
    | exact ⟨h1, h2⟩
    | (rw [inB_mk]; omega)

/-- Auxiliary for C8: neighbours of an in-bounds cell are in bounds. -/
theorem neighbors_inB {n : Nat} {p q : Pos} (hp : inB n p) (h : q ∈ neighbors n p) :
    inB n q := by
  obtain ⟨h1, h2⟩ := hp
  unfold neighbors at h
  rw [List.mem_append, List.mem_append, List.mem_append] at h
  rcases h with ((h | h) | h) | h <;> split at h <;>
    first
      | (simp only [List.mem_singleton] at h; subst h; rw [inB_mk]; omega)
      | simp at h

/-- Auxiliary for C8: the Action Resolver keeps live positions pairwise
distinct — a move is committed only onto an unoccupied cell. -/
theorem resolveGo_nodup (n : Nat) (blocked : List Pos) (acts : Nat → Actions) :
    ∀ (l : List Agent) (committed : List Pos),
      (committed ++ l.map (fun b => b.pos) ++ blocked).Nodup →
      (committed ++ (resolveGo n blocked acts committed l).map (fun b => b.pos) ++
        blocked).Nodup := by
  intro l
  induction l with
  | nil => intro committed h; exact h
  | cons a rest ih =>
    intro committed h
    simp only [resolveGo, List.map_cons]
    by_cases h1 : clampMove n a.pos (acts a.id) = a.pos
    · rw [if_pos h1]
      exact nodup_mid_swap.mp (ih (a.pos :: committed) (nodup_mid_swap.mpr h))
    · rw [if_neg h1]
      by_cases h2 : clampMove n a.pos (acts a.id) ∈
          committed ++ rest.map (fun b => b.pos) ++ blocked
      · rw [if_pos h2]
        exact nodup_mid_swap.mp (ih (a.pos :: committed) (nodup_mid_swap.mpr h))
      · rw [if_neg h2]
        have hdrop : (committed ++ rest.map (fun b => b.pos) ++ blocked).Nodup := by
          have hsw := nodup_mid_swap.mpr h
          exact (List.nodup_cons.mp hsw).2
        have h' : ((clampMove n a.pos (acts a.id) :: committed) ++
            rest.map (fun b => b.pos) ++ blocked).Nodup :=
          List.nodup_cons.mpr ⟨h2, hdrop⟩
        exact nodup_mid_swap.mp (ih (clampMove n a.pos (acts a.id) :: committed) h')

/-- Auxiliary for C8: the Action Resolver keeps agents on the grid. -/
theorem resolveGo_inB (n : Nat) (blocked : List Pos) (acts : Nat → Actions) :
    ∀ (l : List Agent) (committed : List Pos), (∀ a ∈ l, inB n a.pos) →
      ∀ b ∈ resolveGo n blocked acts committed l, inB n b.pos := by
  intro l
  induction l with
  | nil =>
    intro committed _ b hb
    simp [resolveGo] at hb
  | cons a rest ih =>
    intro committed hl b hb
    simp only [resolveGo, List.mem_cons] at hb
    rcases hb with hb | hb
    · subst hb
      have ha := hl a (List.mem_cons_self a rest)
      dsimp only
      split
      · exact ha
      · split
        · exact ha
        · exact clampMove_inB ha _
    · exact ih _ (fun x hx => hl x (List.mem_cons_of_mem a hx)) b hb

/-- Auxiliary: record update of a position only. -/
theorem ent_set_pos_alive (m : Ent) (c : Pos) : ({ m with pos := c }).alive = m.alive := rfl

/-- Auxiliary: record update of a position only, position field. -/
theorem ent_set_pos_pos (m : Ent) (c : Pos) : ({ m with pos := c }).pos = c := rfl

/-- Auxiliary: a modular index always selects a member. -/
theorem getD_mod_mem (l : List Pos) (h : ¬ l.isEmpty = true) (r : Nat) (d : Pos) :
    l.getD (r % l.length) d ∈ l := by
  cases l with
  | nil => exact absurd rfl h
  | cons a as =>
    have hlen : r % (a :: as).length < (a :: as).length := Nat.mod_lt _ (by simp)
    rw [List.getD_eq_getElem?_getD, List.getElem?_eq_getElem hlen]
    simp only [Option.getD_some]
    exact List.getElem_mem hlen

/-- Auxiliary for C8: the Mobile Motion Policy keeps live positions
pairwise distinct — a mobile only moves onto a free cell. -/
theorem moveMobilesGo_nodup (n : Nat) (blocked : List Pos) :
    ∀ (l : List Ent) (committed : List Pos) (g : Nat),
      (committed ++ livePosOf l ++ blocked).Nodup →
      (committed ++ livePosOf (moveMobilesGo n blocked committed g l).1 ++ blocked).Nodup := by
  intro l
  induction l with
  | nil => intro committed g h; exact h
  | cons m rest ih =>
    intro committed g h
    simp only [moveMobilesGo]
    by_cases hm : m.alive = true
    · rw [if_pos hm]
      rw [livePosOf_cons, if_pos hm] at h
      by_cases hfe : ((neighbors n m.pos).filter
          (fun c => decide (¬ c ∈ committed ++ livePosOf rest ++ blocked))).isEmpty = true
      · rw [if_pos hfe]
        rw [livePosOf_cons, if_pos hm]
        exact nodup_mid_swap.mp (ih (m.pos :: committed) g (nodup_mid_swap.mpr h))
      · rw [if_neg hfe]
        rw [livePosOf_cons, ent_set_pos_alive, ent_set_pos_pos, if_pos hm]
        have hsw := nodup_mid_swap.mpr h
        have hdrop := (List.nodup_cons.mp hsw).2
        have hc := getD_mod_mem _ hfe (rngNext g) m.pos
        have hcocc : ¬ ((neighbors n m.pos).filter
            (fun c => decide (¬ c ∈ committed ++ livePosOf rest ++ blocked))).getD
              (rngNext g % ((neighbors n m.pos).filter
                (fun c => decide (¬ c ∈ committed ++ livePosOf rest ++ blocked))).length)
              m.pos ∈ committed ++ livePosOf rest ++ blocked := by
          have := (List.mem_filter.mp hc).2
          simpa using this
        have h' := List.nodup_cons.mpr ⟨hcocc, hdrop⟩
        exact nodup_mid_swap.mp (ih (_ :: committed) (rngNext g) h')
    · rw [if_neg hm]
      rw [livePosOf_cons, if_neg hm] at h
      rw [livePosOf_cons, if_neg hm]
      exact ih committed g h

/-- Auxiliary for C8: the Mobile Motion Policy keeps mobiles on the
grid — a mobile only moves to an in-bounds neighbour. -/
theorem moveMobilesGo_inB (n : Nat) (blocked : List Pos) :
    ∀ (l : List Ent) (committed : List Pos) (g : Nat),
      (∀ m ∈ l, m.alive = true → inB n m.pos) →
      ∀ m2 ∈ (moveMobilesGo n blocked committed g l).1, m2.alive = true → inB n m2.pos := by
  intro l
  induction l with
  | nil =>
    intro committed g _ m2 hm2
    simp [moveMobilesGo] at hm2
  | cons m rest ih =>
    intro committed g hl m2 hm2 halive2
    simp only [moveMobilesGo] at hm2
    by_cases hm : m.alive = true
    · rw [if_pos hm] at hm2
      by_cases hfe : ((neighbors n m.pos).filter
          (fun c => decide (¬ c ∈ committed ++ livePosOf rest ++ blocked))).isEmpty = true
      · rw [if_pos hfe] at hm2
        rcases List.mem_cons.mp hm2 with rfl | hmem
        · exact hl m2 (List.mem_cons_self m2 rest) halive2
        · exact ih (m.pos :: committed) g
            (fun x hx hax => hl x (List.mem_cons_of_mem m hx) hax) m2 hmem halive2
      · rw [if_neg hfe] at hm2
        rcases List.mem_cons.mp hm2 with rfl | hmem
        · have hc := getD_mod_mem _ hfe (rngNext g) m.pos
          have hnb := (List.mem_filter.mp hc).1
          exact neighbors_inB (hl m (List.mem_cons_self m rest) hm) hnb
        · exact ih (_ :: committed) (rngNext g)
            (fun x hx hax => hl x (List.mem_cons_of_mem m hx) hax) m2 hmem halive2
    · rw [if_neg hm] at hm2
      rcases List.mem_cons.mp hm2 with rfl | hmem
      · exact hl m2 (List.mem_cons_self m2 rest) halive2
      · exact ih committed g
          (fun x hx hax => hl x (List.mem_cons_of_mem m hx) hax) m2 hmem halive2

/-- Auxiliary: the entity list after capture detection. -/
theorem captureEnts_fst (ags : List Agent) (es : List Ent) :
    (captureEnts ags es).1 =
      es.map (fun e => if capturedNow ags e then { e with alive := false } else e) := rfl

/-- Auxiliary for C8: capture detection only removes live positions. -/
theorem livePosOf_capture_sublist (ags : List Agent) (es : List Ent) :
    List.Sublist (livePosOf (captureEnts ags es).1) (livePosOf es) := by
  rw [captureEnts_fst]
  induction es with
  | nil => exact List.Sublist.refl _
  | cons e rest ih =>
    simp only [List.map_cons]
    by_cases hc : capturedNow ags e = true
    · rw [if_pos hc, livePosOf_cons, livePosOf_cons]
      have hf : ({ e with alive := false } : Ent).alive = false := rfl
      rw [hf]
      have ha : e.alive = true := by
        have h2 := hc
        unfold capturedNow at h2
        exact (Bool.and_eq_true_iff.mp h2).1
      rw [if_pos ha]
      simp only [Bool.false_eq_true, if_false]
      exact ih.trans (List.sublist_cons_self e.pos (livePosOf rest))
    · rw [if_neg hc, livePosOf_cons, livePosOf_cons]
      by_cases ha : e.alive = true
      · rw [if_pos ha, if_pos ha]
        exact ih.cons₂ e.pos
      · rw [if_neg ha, if_neg ha]
        exact ih

/-- Auxiliary for C8: one engine update preserves the occupancy
invariant. -/
theorem update_posOk (w : World) (acts : Nat → Actions) (g : Nat) (hok : w.posOk) :
    ((w.update acts g).1).posOk := by
  obtain ⟨hnd, hin⟩ := hok
  unfold World.livePositions at hnd hin
  unfold World.posOk World.livePositions
  have h0 : (w.agents.map (fun a => a.pos) ++
      (livePosOf w.targets ++ livePosOf w.mobiles)).Nodup := by
    rw [← List.append_assoc]
    exact hnd
  have h1 := resolveGo_nodup w.size (livePosOf w.targets ++ livePosOf w.mobiles) acts
    w.agents [] h0
  obtain ⟨⟨hA2, hLT, hLM⟩, hA2LT, hA2LM, hLTLM⟩ := nodup_three_iff.mp h1
  have h2hyp : (livePosOf w.mobiles ++
      ((resolveGo w.size (livePosOf w.targets ++ livePosOf w.mobiles) acts [] w.agents).map
        (fun a => a.pos) ++ livePosOf w.targets)).Nodup :=
    nodup_three_iff.mpr ⟨⟨hLM, hA2, hLT⟩, hA2LM.symm, hLTLM.symm, hA2LT⟩
  have h2 := moveMobilesGo_nodup w.size
    ((resolveGo w.size (livePosOf w.targets ++ livePosOf w.mobiles) acts [] w.agents).map
      (fun a => a.pos) ++ livePosOf w.targets)
    w.mobiles [] g h2hyp
  obtain ⟨⟨hLM2, hA2b, hLTb⟩, hM2A2, hM2LT, hA2LTb⟩ := nodup_three_iff.mp h2
  have hsubT := livePosOf_capture_sublist
    (resolveGo w.size (livePosOf w.targets ++ livePosOf w.mobiles) acts [] w.agents) w.targets
  have hsubM := livePosOf_capture_sublist
    (resolveGo w.size (livePosOf w.targets ++ livePosOf w.mobiles) acts [] w.agents)
    (moveMobilesGo w.size
      ((resolveGo w.size (livePosOf w.targets ++ livePosOf w.mobiles) acts [] w.agents).map
        (fun a => a.pos) ++ livePosOf w.targets) [] g w.mobiles).1
  simp only [World.update]
  constructor
  · rw [List.append_assoc]
    refine nodup_three_iff.mpr ⟨⟨hA2b, hsubT.nodup hLTb, hsubM.nodup hLM2⟩, ?_, ?_, ?_⟩
    · exact fun a ha hb => hA2LTb ha (hsubT.subset hb)
    · exact fun a ha hb => hM2A2.symm ha (hsubM.subset hb)
    · exact fun a ha hb => hM2LT.symm (hsubT.subset ha) (hsubM.subset hb)
  · intro p hp
    rw [List.append_assoc] at hp
    rcases List.mem_append.mp hp with hp | hp
    · -- an agent position after the resolver
      obtain ⟨b, hb, hbp⟩ := List.mem_map.mp hp
      subst hbp
      refine resolveGo_inB w.size (livePosOf w.targets ++ livePosOf w.mobiles) acts
        w.agents [] ?_ b hb
      intro a ha
      exact hin a.pos
        (List.mem_append_left _ (List.mem_append_left _ (List.mem_map_of_mem _ ha)))
    · rcases List.mem_append.mp hp with hp | hp
      · -- a live target position after capture
        exact hin p (List.mem_append_left _ (List.mem_append_right _ (hsubT.subset hp)))
      · -- a live mobile position after motion and capture
        obtain ⟨m2, hm2, hal2, hp2⟩ := mem_livePosOf.mp (hsubM.subset hp)
        subst hp2
        refine moveMobilesGo_inB w.size
          ((resolveGo w.size (livePosOf w.targets ++ livePosOf w.mobiles) acts []
            w.agents).map (fun a => a.pos) ++ livePosOf w.targets)
          w.mobiles [] g ?_ m2 hm2 hal2
        intro m hm hal
        exact hin m.pos
          (List.mem_append_right _ (mem_livePosOf.mpr ⟨m, hm, hal, rfl⟩))

/-- C8: after every run of the Initializer (construction and reset) and
after every engine update from a state satisfying it, the occupancy
invariant holds: no two live entities share a cell and every live
entity's position lies within `[0, grid_size - 1]²`. -/
theorem entityPositionsInvariant :
    (∀ (w : World) (g : Nat), ((w.resetW g).1).posOk) ∧
    (∀ (w : World) (acts : Nat → Actions) (g : Nat), w.posOk →
      ((w.update acts g).1).posOk) :=
  ⟨resetW_posOk, update_posOk⟩

/-- C8 witness: the invariant holds concretely after a reset of the
sample world and after one further update. -/
theorem entityPositionsInvariantW :
    ((sampleInit.1.world.resetW sampleInit.2).1.update noopActs 0).1.posOk :=
  entityPositionsInvariant.2 _ noopActs 0
    (entityPositionsInvariant.1 sampleInit.1.world sampleInit.2)
